import Mathlib

/-!
Shallow embedding of the memory storage and hybrid retrieval engine of
mcp-semantic-recall (src/services/memory-service.ts, src/lib/database.ts).

Modelling conventions:
* A LanceDB table of memories is a `List Memory`; `table.add` appends rows,
  `table.delete (id = x)` filters out all rows whose id is `x`, and
  `table.query().where(id = x).limit(1)` is a point lookup on the first match.
* JavaScript numbers are modelled as `ℚ` (scores, embedding components) and
  `ℕ` (timestamps, counts); `Date.now()` is an explicit `now : ℕ` parameter.
* The embedding provider (`embeddingService.generateEmbedding`) is an abstract
  `EmbedFn : String → Option Vec`; `none` models a rejected provider call
  (EmbeddingGenerationFailure), which in the source is a thrown error.
* The combined store `vectorSearch(qvec).fullTextSearch(query)` ranking is an
  abstract oracle `HybridFn` returning the full ranked candidate list together
  with the optional `_distance` of each row; `.limit(n)` is `List.take n`.
* `crypto.randomUUID()` is an explicit id parameter (`freshId` / `ids`).
* The fire-and-forget usage bookkeeping (`table.update` per retrieved row,
  failures caught and logged) is modelled by a per-id success oracle
  `ok : String → Bool`; a failed update leaves the table unchanged for that row.
* The LanceDB `Query.where` method sets the single filter predicate of a query, so a second
  `.where(...)` call on the same query replaces the first predicate; the
  predicate strings built with `escapeSqlString` are modelled by their
  semantics over the original (unescaped) values.
-/

namespace SemanticRecall

/-- One stored memory row (interface `Memory` of memory-service.ts). -/
structure Memory where
  id : String
  content : String
  embedding : List ℚ
  timestamp : ℕ
  project : Option String
  tags : Option (List String)
  last_used : Option ℕ
  usage_count : Option ℕ
deriving DecidableEq

/-- One search result as returned by `searchMemories`. -/
structure SearchResult where
  id : String
  content : String
  score : ℚ
  timestamp : ℕ
  project : Option String
  tags : Option (List String)
  usage_count : Option ℕ
deriving DecidableEq

/-- One item of an `addMemories` batch. -/
structure BatchItem where
  content : String
  project : Option String
  tags : Option (List String)
deriving DecidableEq

/-- The embedding configuration triple (interface `ConfigMetadata` /
`EmbeddingConfig` of the source). -/
structure EmbeddingConfig where
  provider : String
  model : String
  dimension : ℕ
deriving DecidableEq

/-- One row of the result of `listMemories` (the mapped projection that drops
the embedding column). -/
structure ListItem where
  id : String
  content : String
  timestamp : ℕ
  project : Option String
  tags : Option (List String)
  usage_count : Option ℕ
  last_used : Option ℕ
deriving DecidableEq

/-- An embedding vector. -/
abbrev Vec := List ℚ

/-- The embedding provider: `none` models a failed provider call. -/
abbrev EmbedFn := String → Option Vec

/-- The combined vector + full-text ranking oracle of the store: given the table,
the query embedding and the query text, the full candidate list in ranked
order, each with its optional `_distance`. -/
abbrev HybridFn := List Memory → Vec → String → List (Memory × Option ℚ)

/-- A single quote character (codepoint 39). -/
def squote : Char := Char.ofNat 39

/-- Model of `escapeSqlString` of memory-service.ts: double every single quote. -/
def escapeSqlString (value : String) : String :=
  String.mk (value.data.flatMap (fun c => if c = squote then [c, c] else [c]))

/-- The error message thrown when the embedding provider call fails
(abstracting over the provider-specific message text). -/
def embedErrorMsg : String := "embedding generation failed"

/-- The `Memory with id ... not found` error message. -/
def notFoundMsg (memoryId : String) : String :=
  "Memory with id " ++ memoryId ++ " not found"

/-- Model of `table.query().where(id = memoryId).limit(1)` followed by taking the first
row, as used by `updateMemory` and `getRelatedMemories`. -/
def findById (table : List Memory) (memoryId : String) : Option Memory :=
  ((table.filter (fun m => m.id == memoryId)).take 1).head?

/-- Mapping of one raw store row to a search result: `_distance` defaults to 0
when absent (`(result._distance as number) ?? 0`). -/
def toSearchResult (m : Memory) (dist : Option ℚ) : SearchResult :=
  { id := m.id, content := m.content, score := dist.getD 0, timestamp := m.timestamp,
    project := m.project, tags := m.tags, usage_count := m.usage_count }

/-- The `processedResults` list of `searchMemories`: the first `limit * 3`
candidates of the hybrid query, mapped to search results. -/
def processedResults (table : List Memory) (hybrid : HybridFn) (qvec : Vec)
    (query : String) (limit : ℕ) : List SearchResult :=
  ((hybrid table qvec query).take (limit * 3)).map (fun p => toSearchResult p.1 p.2)

/-- Model of one `table.update({where: id = rid, values: {usage_count, last_used}})`
call: every row with that id gets the new usage count and `last_used`. -/
def updateUsage (table : List Memory) (rid : String) (newCount : ℕ) (now : ℕ) :
    List Memory :=
  table.map (fun m =>
    if m.id == rid then { m with usage_count := some newCount, last_used := some now }
    else m)

/-- The usage-bookkeeping side effect of `searchMemories`: for each of the top
results, update its row; a failed update (`ok r.id = false`, caught and logged
in the source) leaves the table unchanged for that row. The new count is
computed from the snapshot held by the result: `(result.usage_count ?? 0) + 1`. -/
def applyUsageUpdates (table : List Memory) (tops : List SearchResult) (now : ℕ)
    (ok : String → Bool) : List Memory :=
  tops.foldl
    (fun t r => if ok r.id then updateUsage t r.id (r.usage_count.getD 0 + 1) now else t)
    table

/-- The `boostFrequent` score recomputation of `searchMemories`:
`usageFactor = min(1.0, usageCount / 10)`, `score * (1 - usageFactor * 0.4)`. -/
def boosted (r : SearchResult) : SearchResult :=
  { r with score := r.score * (1 - min 1 ((r.usage_count.getD 0 : ℚ) / 10) * (4 / 10)) }

/-- Model of `MemoryService.searchMemories`: embed the query, take `limit * 3`
candidates from the hybrid (vector + full-text) query, launch the best-effort
usage updates for the top `limit` candidates, optionally boost-and-resort,
and return the first `limit` results together with the table as left by the
bookkeeping. `Array.prototype.sort` with comparator `a.score - b.score` is the
stable ascending sort `List.mergeSort`. -/
def searchMemories (table : List Memory) (hybrid : HybridFn) (embed : EmbedFn)
    (query : String) (limit : ℕ) (boostFrequent : Bool) (now : ℕ)
    (ok : String → Bool) : Except String (List SearchResult × List Memory) :=
  match embed query with
  | none => .error embedErrorMsg
  | some qvec =>
    let processed := processedResults table hybrid qvec query limit
    let newTable := applyUsageUpdates table (processed.take limit) now ok
    let final :=
      if boostFrequent then
        (processed.map boosted).mergeSort (fun a b => decide (a.score ≤ b.score))
      else processed
    .ok (final.take limit, newTable)

/-- Model of `MemoryService.addMemory`: embed the content, build one record with a
fresh id, the current time, `usage_count: 0` and no `last_used`, append it,
and return the id. -/
def addMemory (table : List Memory) (embed : EmbedFn) (freshId : String) (now : ℕ)
    (content : String) (mproject : Option String) (mtags : Option (List String)) :
    Except String (String × List Memory) :=
  match embed content with
  | none => .error embedErrorMsg
  | some emb =>
    let memory : Memory :=
      { id := freshId, content := content, embedding := emb, timestamp := now,
        project := mproject, tags := mtags, last_used := none, usage_count := some 0 }
    .ok (freshId, table ++ [memory])

/-- Model of `Promise.all` over the per-item embedding calls of `addMemories`: `none`
as soon as any single embedding fails, `some` of all vectors otherwise. -/
def embedAll (embed : EmbedFn) : List BatchItem → Option (List Vec)
  | [] => some []
  | m :: rest =>
    match embed m.content, embedAll embed rest with
    | some e, some es => some (e :: es)
    | _, _ => none

/-- The `memoryObjects` construction of `addMemories`: one record per item,
sharing the batch timestamp `now`, with `project: m.project ?? defaults?.project`
and `tags: m.tags ?? defaults?.tags`, `usage_count: 0`, no `last_used`. -/
def mkBatchRecords (now : ℕ) (dp : Option String) (dt : Option (List String)) :
    List BatchItem → List String → List Vec → List Memory
  | i :: is, id :: ids, e :: es =>
    { id := id, content := i.content, embedding := e, timestamp := now,
      project := i.project <|> dp, tags := i.tags <|> dt, last_used := none,
      usage_count := some 0 } :: mkBatchRecords now dp dt is ids es
  | _, _, _ => []

/-- Model of `MemoryService.addMemories`: generate all embeddings (in parallel via
`Promise.all`; any failure aborts before any insert), build all records with
one shared timestamp, append them in a single `table.add` call, and return
their ids. -/
def addMemories (table : List Memory) (embed : EmbedFn) (ids : List String) (now : ℕ)
    (items : List BatchItem) (dp : Option String) (dt : Option (List String)) :
    Except String (List String × List Memory) :=
  match embedAll embed items with
  | none => .error embedErrorMsg
  | some embs =>
    let memoryObjects := mkBatchRecords now dp dt items ids embs
    .ok (memoryObjects.map (fun m => m.id), table ++ memoryObjects)

/-- Model of `MemoryService.updateMemory`, faithful to the statement order of the source:
look up the record, fail with not-found if absent, DELETE it, then build the
replacement (generating the new embedding at this point when `content` is
given) and append it. The second component of the pair is the table state after
the call, including the state left behind when the embedding call throws
after the delete has already happened. -/
def updateMemory (table : List Memory) (embed : EmbedFn) (memoryId : String)
    (content : Option String) (mproject : Option String)
    (mtags : Option (List String)) : Except String Unit × List Memory :=
  match findById table memoryId with
  | none => (.error (notFoundMsg memoryId), table)
  | some existing =>
    let afterDelete := table.filter (fun m => m.id != memoryId)
    match content with
    | some c =>
      match embed c with
      | none => (.error embedErrorMsg, afterDelete)
      | some emb =>
        let updatedMemory : Memory :=
          { id := memoryId, content := c, embedding := emb,
            timestamp := existing.timestamp,
            project := mproject <|> existing.project,
            tags := mtags <|> existing.tags,
            usage_count := existing.usage_count,
            last_used := existing.last_used }
        (.ok (), afterDelete ++ [updatedMemory])
    | none =>
      let updatedMemory : Memory :=
        { id := memoryId, content := existing.content,
          embedding := existing.embedding, timestamp := existing.timestamp,
          project := mproject <|> existing.project,
          tags := mtags <|> existing.tags,
          usage_count := existing.usage_count,
          last_used := existing.last_used }
      (.ok (), afterDelete ++ [updatedMemory])

/-- The `project = p` where-predicate of `listMemories` (semantics of the
escaped predicate string over the original value). -/
def projectFilter (p : String) (m : Memory) : Bool :=
  m.project == some p

/-- The `array_contains(tags, t) OR ...` where-predicate of `listMemories`;
a row with NULL tags matches no tag. -/
def tagsFilter (ts : List String) (m : Memory) : Bool :=
  ts.any (fun t => (m.tags.getD []).contains t)

/-- Projection of a row to the shape returned by `listMemories`. -/
def toListItem (m : Memory) : ListItem :=
  { id := m.id, content := m.content, timestamp := m.timestamp, project := m.project,
    tags := m.tags, usage_count := m.usage_count, last_used := m.last_used }

/-- Model of `MemoryService.listMemories`. The source chains `query.where(project ...)`
and then `query.where(tagFilter)` on the same query; the LanceDB `where`
method (`only_if`) sets the single filter of the query, so the second call replaces the
first, leaving only the tag predicate when both filters are requested.
`if (options?.project)` is JavaScript truthiness: the empty string does not
install a filter. Retrieves `limit + offset` rows and slices
`[offset, offset + limit)` client-side. -/
def listMemories (table : List Memory) (project : Option String)
    (tags : Option (List String)) (limit offset : ℕ) : List ListItem :=
  let filter1 : Option (Memory → Bool) :=
    match project with
    | some p => if p != "" then some (projectFilter p) else none
    | none => none
  let filter2 : Option (Memory → Bool) :=
    match tags with
    | some ts => if ts.length > 0 then some (tagsFilter ts) else filter1
    | none => filter1
  let rows :=
    (match filter2 with
      | some f => table.filter f
      | none => table).take (limit + offset)
  ((rows.drop offset).take limit).map toListItem

/-- Model of `MemoryService.getRelatedMemories`: look up the source record (not-found
error if absent), search with the own content of the source record and `limit + 1`, then
drop the source id from the results and truncate to `limit`. The table
component carries the bookkeeping effect of the inner search. -/
def getRelatedMemories (table : List Memory) (hybrid : HybridFn) (embed : EmbedFn)
    (memoryId : String) (limit : ℕ) (boostFrequent : Bool) (now : ℕ)
    (ok : String → Bool) : Except String (List SearchResult × List Memory) :=
  match findById table memoryId with
  | none => .error (notFoundMsg memoryId)
  | some source =>
    match searchMemories table hybrid embed source.content (limit + 1) boostFrequent
        now ok with
    | .error e => .error e
    | .ok (results, t) =>
      .ok ((results.filter (fun r => r.id != memoryId)).take limit, t)

/-- The `ConfigMismatch` message of `DatabaseService.initialize`, naming the
persisted and the active configuration and the two remediation options. -/
def mismatchMessage (persisted active : EmbeddingConfig) (dbPath : String) : String :=
  "Database was created with " ++ persisted.provider ++ "/" ++ persisted.model ++
    " but current session is using " ++ active.provider ++ "/" ++ active.model ++
    ". Either switch to the original model or delete " ++ dbPath ++ " to start fresh."

/-- The config-guard part of `DatabaseService.initialize`: `persisted` is the
contents of the `config` table (`none` when the table does not exist). With a
persisted first row, a mismatch on provider or model fails; a match leaves the
config untouched. Without a config table, the active configuration is written
as the single config row. The result is the persisted config state after
initialization. -/
def reconcile (persisted : Option (List EmbeddingConfig)) (active : EmbeddingConfig)
    (dbPath : String) : Except String (Option (List EmbeddingConfig)) :=
  match persisted with
  | some rows =>
    match rows.head? with
    | some cfg =>
      if cfg.provider != active.provider || cfg.model != active.model then
        .error (mismatchMessage cfg active dbPath)
      else
        .ok (some rows)
    | none => .ok (some rows)
  | none => .ok (some [active])

/-! Concrete instances used by witnesses and counterexamples. -/

/-- The Ollama configuration of embeddings.ts. -/
def cfgOllama : EmbeddingConfig :=
  { provider := "ollama", model := "nomic-embed-text", dimension := 768 }

/-- The Transformers.js fallback configuration of embeddings.ts. -/
def cfgTransformers : EmbeddingConfig :=
  { provider := "transformers", model := "Xenova/all-MiniLM-L6-v2", dimension := 384 }

/-- A database path for witness instances. -/
def wDbPath : String := "/home/user/.mcp-semantic-recall"

/-- An embedding provider that always succeeds with the vector `[1]`. -/
def wEmbedOne : EmbedFn := fun _ => some [1]

/-- An embedding provider whose every call fails. -/
def embedNever : EmbedFn := fun _ => none

/-- A hybrid ranking oracle returning no candidates. -/
def wHybridEmpty : HybridFn := fun _ _ _ => []

/-- A memory id for witness instances. -/
def wId1 : String := "id-1"

/-- A content string for witness instances. -/
def wContent : String := "note"

/-- A query string for witness instances. -/
def wQuery : String := "query"

/-- The stored record of the C3 failing input. -/
def c3Memory : Memory :=
  { id := "a", content := "old", embedding := [1], timestamp := 1, project := none,
    tags := none, last_used := none, usage_count := some 0 }

/-- The replacement content of the C3 failing input. -/
def c3NewContent : String := "new"

/-- The stored record of the C6 failing input: project `projB`, tag `tag1`. -/
def c6Memory : Memory :=
  { id := "m1", content := "note", embedding := [], timestamp := 0,
    project := some "projB", tags := some ["tag1"], last_used := none,
    usage_count := none }

/-- The project filter of the C6 failing input (not the project of the stored record). -/
def c6ProjectA : String := "projA"

/-- The batch items of the C7 witness. -/
def wItems : List BatchItem :=
  [{ content := "alpha", project := none, tags := none },
   { content := "beta", project := some "projA", tags := some ["t1"] }]

/-- The fresh ids of the C7 witness. -/
def wIds : List String := ["id-1", "id-2"]

/-- The single stored record of the C10 witness instance. -/
def demoMemory : Memory :=
  { id := "m1", content := "note", embedding := [1], timestamp := 4, project := none,
    tags := none, last_used := none, usage_count := some 0 }

/-- A hybrid oracle ranking every table row with distance 0, in table order. -/
def demoHybrid : HybridFn := fun table _ _ => table.map (fun m => (m, some 0))

/-- The C10 witness record after one usage update at time 99. -/
def demoUpdated : Memory :=
  { demoMemory with usage_count := some 1, last_used := some 99 }

/-! Helper lemmas. -/

theorem applyUsageUpdates_cons (table : List Memory) (r : SearchResult)
    (rs : List SearchResult) (now : ℕ) (ok : String → Bool) :
    applyUsageUpdates table (r :: rs) now ok =
      applyUsageUpdates
        (if ok r.id then updateUsage table r.id (r.usage_count.getD 0 + 1) now else table)
        rs now ok := rfl

theorem updateUsage_length (table : List Memory) (rid : String) (c now : ℕ) :
    (updateUsage table rid c now).length = table.length :=
  List.length_map _ _

theorem applyUsageUpdates_length (tops : List SearchResult) (table : List Memory)
    (now : ℕ) (ok : String → Bool) :
    (applyUsageUpdates table tops now ok).length = table.length := by
  induction tops generalizing table with
  | nil => rfl
  | cons r rs ih =>
    rw [applyUsageUpdates_cons]
    by_cases hok : ok r.id
    · rw [if_pos hok, ih, updateUsage_length]
    · rw [if_neg hok, ih]

theorem updateUsage_getElem? (table : List Memory) (rid : String) (c now i : ℕ)
    (m : Memory) (hm : table[i]? = some m) (hne : m.id ≠ rid) :
    (updateUsage table rid c now)[i]? = some m := by
  simp [updateUsage, List.getElem?_map, hm, hne]

theorem applyUsageUpdates_getElem? (tops : List SearchResult) (table : List Memory)
    (now : ℕ) (ok : String → Bool) (i : ℕ) (m : Memory) (hm : table[i]? = some m)
    (hmem : m.id ∉ tops.map (fun r => r.id)) :
    (applyUsageUpdates table tops now ok)[i]? = some m := by
  induction tops generalizing table with
  | nil => exact hm
  | cons r rs ih =>
    rw [List.map_cons, List.mem_cons] at hmem
    push_neg at hmem
    rw [applyUsageUpdates_cons]
    by_cases hok : ok r.id
    · rw [if_pos hok]
      exact ih (updateUsage table r.id (r.usage_count.getD 0 + 1) now)
        (updateUsage_getElem? table r.id (r.usage_count.getD 0 + 1) now i m hm hmem.1)
        hmem.2
    · rw [if_neg hok]
      exact ih table hm hmem.2

theorem embedAll_length (embed : EmbedFn) (items : List BatchItem) (embs : List Vec)
    (h : embedAll embed items = some embs) : embs.length = items.length := by
  induction items generalizing embs with
  | nil =>
    simp only [embedAll] at h
    cases h
    rfl
  | cons m rest ih =>
    simp only [embedAll] at h
    cases he : embed m.content with
    | none => rw [he] at h; cases h
    | some e =>
      rw [he] at h
      cases hr : embedAll embed rest with
      | none => rw [hr] at h; cases h
      | some es =>
        rw [hr] at h
        cases h
        simp [ih es hr]

theorem mkBatchRecords_length (now : ℕ) (dp : Option String) (dt : Option (List String))
    (items : List BatchItem) (ids : List String) (embs : List Vec)
    (h1 : ids.length = items.length) (h2 : embs.length = items.length) :
    (mkBatchRecords now dp dt items ids embs).length = items.length := by
  induction items generalizing ids embs with
  | nil => rfl
  | cons m rest ih =>
    cases ids with
    | nil => cases h1
    | cons id ids =>
      cases embs with
      | nil => cases h2
      | cons e es =>
        simp only [mkBatchRecords, List.length_cons]
        exact congrArg Nat.succ (ih ids es (Nat.succ_injective h1) (Nat.succ_injective h2))

theorem mkBatchRecords_map_id (now : ℕ) (dp : Option String) (dt : Option (List String))
    (items : List BatchItem) (ids : List String) (embs : List Vec)
    (h1 : ids.length = items.length) (h2 : embs.length = items.length) :
    (mkBatchRecords now dp dt items ids embs).map (fun m => m.id) = ids := by
  induction items generalizing ids embs with
  | nil =>
    cases ids with
    | nil => rfl
    | cons id ids => cases h1
  | cons m rest ih =>
    cases ids with
    | nil => cases h1
    | cons id ids =>
      cases embs with
      | nil => cases h2
      | cons e es =>
        simp only [mkBatchRecords, List.map_cons]
        exact congrArg (id :: ·) (ih ids es (Nat.succ_injective h1) (Nat.succ_injective h2))

theorem mkBatchRecords_mem (now : ℕ) (dp : Option String) (dt : Option (List String))
    (items : List BatchItem) (ids : List String) (embs : List Vec) (m : Memory)
    (hm : m ∈ mkBatchRecords now dp dt items ids embs) :
    m.timestamp = now ∧ m.usage_count = some 0 ∧ m.last_used = none := by
  induction items generalizing ids embs with
  | nil => cases hm
  | cons it rest ih =>
    cases ids with
    | nil => cases hm
    | cons id ids =>
      cases embs with
      | nil => cases hm
      | cons e es =>
        simp only [mkBatchRecords, List.mem_cons] at hm
        cases hm with
        | inl h => subst h; exact ⟨rfl, rfl, rfl⟩
        | inr h => exact ih ids es h

theorem mkBatchRecords_get (now : ℕ) (dp : Option String) (dt : Option (List String))
    (items : List BatchItem) (ids : List String) (embs : List Vec) (i : ℕ)
    (hi : i < items.length) (ho : i < (mkBatchRecords now dp dt items ids embs).length) :
    ((mkBatchRecords now dp dt items ids embs).get ⟨i, ho⟩).project =
        ((items.get ⟨i, hi⟩).project <|> dp) ∧
      ((mkBatchRecords now dp dt items ids embs).get ⟨i, ho⟩).tags =
        ((items.get ⟨i, hi⟩).tags <|> dt) ∧
      ((mkBatchRecords now dp dt items ids embs).get ⟨i, ho⟩).content =
        (items.get ⟨i, hi⟩).content := by
  induction items generalizing ids embs i with
  | nil => cases hi
  | cons it rest ih =>
    cases ids with
    | nil => cases ho
    | cons id ids =>
      cases embs with
      | nil => cases ho
      | cons e es =>
        cases i with
        | zero => exact ⟨rfl, rfl, rfl⟩
        | succ n =>
          exact ih ids es n (Nat.lt_of_succ_lt_succ hi) (Nat.lt_of_succ_lt_succ ho)

theorem searchMemories_eq (table : List Memory) (hybrid : HybridFn) (embed : EmbedFn)
    (query : String) (limit : ℕ) (bf : Bool) (now : ℕ) (ok : String → Bool) (qvec : Vec)
    (hq : embed query = some qvec) :
    searchMemories table hybrid embed query limit bf now ok =
      .ok ((if bf then
          ((processedResults table hybrid qvec query limit).map boosted).mergeSort
            (fun a b => decide (a.score ≤ b.score))
        else processedResults table hybrid qvec query limit).take limit,
        applyUsageUpdates table
          ((processedResults table hybrid qvec query limit).take limit) now ok) := by
  simp only [searchMemories, hq]

theorem getRelated_eq (table : List Memory) (hybrid : HybridFn) (embed : EmbedFn)
    (memoryId : String) (limit : ℕ) (bf : Bool) (now : ℕ) (ok : String → Bool)
    (src : Memory) (res : List SearchResult) (t : List Memory)
    (hsrc : findById table memoryId = some src)
    (hs : searchMemories table hybrid embed src.content (limit + 1) bf now ok =
      .ok (res, t)) :
    getRelatedMemories table hybrid embed memoryId limit bf now ok =
      .ok ((res.filter (fun r => r.id != memoryId)).take limit, t) := by
  simp [getRelatedMemories, hsrc, hs]

/-! Claim theorems. -/

/-- C2: on initialization against a store with a persisted config row, a
mismatch on provider or model fails with a ConfigMismatch error whose message
names both configurations and the remediation target; with both fields equal
it succeeds leaving the persisted config unchanged; with no persisted config
the active configuration is persisted verbatim. -/
theorem reconcile_config_guard (persisted : Option (List EmbeddingConfig))
    (active : EmbeddingConfig) (dbPath : String) :
    (persisted = none → reconcile persisted active dbPath = .ok (some [active])) ∧
    (∀ rows cfg, persisted = some rows → rows.head? = some cfg →
      ((cfg.provider ≠ active.provider ∨ cfg.model ≠ active.model) →
        reconcile persisted active dbPath = .error (mismatchMessage cfg active dbPath) ∧
        ∃ s1 s2 s3 s4, mismatchMessage cfg active dbPath =
          s1 ++ (cfg.provider ++ "/" ++ cfg.model) ++
            (s2 ++ (active.provider ++ "/" ++ active.model) ++ (s3 ++ dbPath ++ s4))) ∧
      ((cfg.provider = active.provider ∧ cfg.model = active.model) →
        reconcile persisted active dbPath = .ok (some rows))) := by
  constructor
  · intro h
    subst h
    rfl
  · intro rows cfg hp hc
    subst hp
    constructor
    · intro hne
      have hcond : (cfg.provider != active.provider || cfg.model != active.model) = true := by
        rcases hne with h | h <;> simp [bne_iff_ne, h]
      constructor
      · simp [reconcile, hc, hcond]
      · refine ⟨"Database was created with ", " but current session is using ",
          ". Either switch to the original model or delete ", " to start fresh.", ?_⟩
        simp only [mismatchMessage, String.append_assoc]
    · intro heq
      have hcond : (cfg.provider != active.provider || cfg.model != active.model) = false := by
        simp [bne_iff_ne, heq.1, heq.2]
      simp [reconcile, hc, hcond]

/-- C2 witness: an ollama/nomic-embed-text store reopened under the
Transformers.js configuration fails with the mismatch message. -/
theorem reconcile_config_guard_witness :
    reconcile (some [cfgOllama]) cfgTransformers wDbPath =
      .error (mismatchMessage cfgOllama cfgTransformers wDbPath) := by
  have h := (reconcile_config_guard (some [cfgOllama]) cfgTransformers wDbPath).2
    [cfgOllama] cfgOllama rfl rfl
  exact (h.1 (Or.inl (by decide))).1

/-- C9: `addMemory` embeds the content, stamps the current time, inserts one
record with the given content, `usage_count = 0` and no `last_used`, and
returns the fresh id, which identifies exactly one record in the new table. -/
theorem addMemory_spec (table : List Memory) (embed : EmbedFn) (freshId : String)
    (now : ℕ) (content : String) (mproject : Option String)
    (mtags : Option (List String)) (emb : Vec) (hemb : embed content = some emb)
    (hfresh : freshId ∉ table.map (fun m => m.id)) :
    ∃ rec, addMemory table embed freshId now content mproject mtags =
        .ok (freshId, table ++ [rec]) ∧
      rec.id = freshId ∧ rec.content = content ∧ rec.embedding = emb ∧
      rec.timestamp = now ∧ rec.usage_count = some 0 ∧ rec.last_used = none ∧
      ((table ++ [rec]).filter (fun m => m.id == freshId)).length = 1 := by
  refine ⟨{ id := freshId, content := content, embedding := emb, timestamp := now,
            project := mproject, tags := mtags, last_used := none,
            usage_count := some 0 },
    ?_, rfl, rfl, rfl, rfl, rfl, rfl, ?_⟩
  · simp [addMemory, hemb]
  · rw [List.filter_append]
    have h1 : table.filter (fun m => m.id == freshId) = [] := by
      rw [List.filter_eq_nil_iff]
      intro m hm
      simp only [beq_iff_eq]
      intro heq
      exact hfresh (List.mem_map.mpr ⟨m, hm, heq⟩)
    rw [h1]
    simp

/-- C9 witness: adding a note to the empty store succeeds. -/
theorem addMemory_spec_witness :
    (addMemory [] wEmbedOne wId1 5 wContent none none).isOk = true := by
  obtain ⟨rec, heq, -⟩ := addMemory_spec [] wEmbedOne wId1 5 wContent none none [1] rfl
    (by simp)
  rw [heq]
  rfl

/-- C3 (code bug): `updateMemory` deletes the existing record before
generating the new embedding, so a failing embedding call on an update leaves
the store without the record — a partial write. At the failing input the
record `c3Memory` is present beforehand, the update errors, and the resulting
table is empty. `addMemory` and `addMemories` do abort before any insert. -/
theorem updateMemory_embed_failure_partial_write :
    updateMemory [c3Memory] embedNever c3Memory.id (some c3NewContent) none none =
      (.error embedErrorMsg, []) ∧
    addMemory [c3Memory] embedNever wId1 2 c3NewContent none none =
      .error embedErrorMsg ∧
    addMemories [c3Memory] embedNever [wId1] 2 [⟨c3NewContent, none, none⟩] none none =
      .error embedErrorMsg := by
  refine ⟨?_, rfl, rfl⟩
  rfl

/-- C6 (code bug): with both a project filter and a tag filter supplied, the
second `where` call replaces the first, so `listMemories` returns a row from a
different project that merely matches a tag — the claimed conjunction of
project equality and tag membership does not hold. -/
theorem listMemories_project_filter_dropped :
    listMemories [c6Memory] (some c6ProjectA) (some ["tag1"]) 10 0 =
      [toListItem c6Memory] ∧
    c6Memory.project ≠ some c6ProjectA := by
  refine ⟨?_, by decide⟩
  rfl

/-- C4: a successful `updateMemory` preserves `timestamp`, `usage_count` and
`last_used`, regenerates the embedding exactly when new content is supplied
(carrying the stored embedding over unchanged otherwise), replaces `project`
and `tags` only when supplied, and fails with not-found on an unknown id,
leaving the table unchanged. -/
theorem updateMemory_frame (table : List Memory) (embed : EmbedFn) (memoryId : String)
    (content : Option String) (mproject : Option String)
    (mtags : Option (List String)) :
    (findById table memoryId = none →
      updateMemory table embed memoryId content mproject mtags =
        (.error (notFoundMsg memoryId), table)) ∧
    (∀ ex, findById table memoryId = some ex → content = none →
      ∃ rec, updateMemory table embed memoryId content mproject mtags =
          (.ok (), table.filter (fun m => m.id != memoryId) ++ [rec]) ∧
        rec.id = memoryId ∧ rec.content = ex.content ∧ rec.embedding = ex.embedding ∧
        rec.timestamp = ex.timestamp ∧ rec.usage_count = ex.usage_count ∧
        rec.last_used = ex.last_used ∧
        (mproject = none → rec.project = ex.project) ∧
        (∀ p, mproject = some p → rec.project = some p) ∧
        (mtags = none → rec.tags = ex.tags) ∧
        (∀ ts, mtags = some ts → rec.tags = some ts)) ∧
    (∀ ex c emb, findById table memoryId = some ex → content = some c →
      embed c = some emb →
      ∃ rec, updateMemory table embed memoryId content mproject mtags =
          (.ok (), table.filter (fun m => m.id != memoryId) ++ [rec]) ∧
        rec.id = memoryId ∧ rec.content = c ∧ rec.embedding = emb ∧
        rec.timestamp = ex.timestamp ∧ rec.usage_count = ex.usage_count ∧
        rec.last_used = ex.last_used ∧
        (mproject = none → rec.project = ex.project) ∧
        (∀ p, mproject = some p → rec.project = some p) ∧
        (mtags = none → rec.tags = ex.tags) ∧
        (∀ ts, mtags = some ts → rec.tags = some ts)) := by
  refine ⟨?_, ?_, ?_⟩
  · intro h
    simp [updateMemory, h]
  · intro ex hex hc
    subst hc
    refine ⟨{ id := memoryId, content := ex.content, embedding := ex.embedding,
              timestamp := ex.timestamp, project := mproject <|> ex.project,
              tags := mtags <|> ex.tags, last_used := ex.last_used,
              usage_count := ex.usage_count },
      ?_, rfl, rfl, rfl, rfl, rfl, rfl, ?_, ?_, ?_, ?_⟩
    · simp [updateMemory, hex]
    · intro h; subst h; simp
    · intro p h; subst h; simp
    · intro h; subst h; simp
    · intro ts h; subst h; simp
  · intro ex c emb hex hc hemb
    subst hc
    refine ⟨{ id := memoryId, content := c, embedding := emb,
              timestamp := ex.timestamp, project := mproject <|> ex.project,
              tags := mtags <|> ex.tags, last_used := ex.last_used,
              usage_count := ex.usage_count },
      ?_, rfl, rfl, rfl, rfl, rfl, rfl, ?_, ?_, ?_, ?_⟩
    · simp [updateMemory, hex, hemb]
    · intro h; subst h; simp
    · intro p h; subst h; simp
    · intro h; subst h; simp
    · intro ts h; subst h; simp

/-- C4 witness: updating an id absent from the empty store fails with the
not-found error and leaves the store empty. -/
theorem updateMemory_frame_witness :
    updateMemory [] wEmbedOne wId1 none none none = (.error (notFoundMsg wId1), []) :=
  (updateMemory_frame [] wEmbedOne wId1 none none none).1 rfl

/-- C5: `getRelatedMemories` fails with not-found when the id is absent;
otherwise it calls `searchMemories` with the own content of the source record and
`limit + 1`, filters the source id out and truncates to `limit`; every
returned result therefore has an id different from the source id, and at most
`limit` results are returned. -/
theorem getRelatedMemories_spec (table : List Memory) (hybrid : HybridFn)
    (embed : EmbedFn) (memoryId : String) (limit : ℕ) (bf : Bool) (now : ℕ)
    (ok : String → Bool) :
    (findById table memoryId = none →
      getRelatedMemories table hybrid embed memoryId limit bf now ok =
        .error (notFoundMsg memoryId)) ∧
    (∀ src res t, findById table memoryId = some src →
      searchMemories table hybrid embed src.content (limit + 1) bf now ok =
        .ok (res, t) →
      getRelatedMemories table hybrid embed memoryId limit bf now ok =
        .ok ((res.filter (fun r => r.id != memoryId)).take limit, t)) ∧
    (∀ res t,
      getRelatedMemories table hybrid embed memoryId limit bf now ok = .ok (res, t) →
      res.length ≤ limit ∧ ∀ r ∈ res, r.id ≠ memoryId) := by
  refine ⟨?_, ?_, ?_⟩
  · intro h
    simp [getRelatedMemories, h]
  · intro src res t hsrc hs
    exact getRelated_eq table hybrid embed memoryId limit bf now ok src res t hsrc hs
  · intro res t hok
    unfold getRelatedMemories at hok
    cases hf : findById table memoryId with
    | none =>
      rw [hf] at hok
      exact absurd hok (by simp)
    | some src =>
      rw [hf] at hok
      dsimp only at hok
      cases hs : searchMemories table hybrid embed src.content (limit + 1) bf now ok with
      | error e =>
        rw [hs] at hok
        exact absurd hok (by simp)
      | ok p =>
        obtain ⟨rs, t2⟩ := p
        rw [hs] at hok
        simp only [Except.ok.injEq, Prod.mk.injEq] at hok
        obtain ⟨h1, h2⟩ := hok
        subst h1
        constructor
        · exact List.length_take_le _ _
        · intro r hr
          have hr2 := List.take_subset _ _ hr
          have := (List.mem_filter.mp hr2).2
          simpa [bne_iff_ne] using this

/-- C5 witness: a related-memories lookup on the empty store fails with the
not-found error. -/
theorem getRelatedMemories_spec_witness :
    getRelatedMemories [] wHybridEmpty wEmbedOne wId1 2 false 7 (fun _ => true) =
      .error (notFoundMsg wId1) :=
  (getRelatedMemories_spec [] wHybridEmpty wEmbedOne wId1 2 false 7 (fun _ => true)).1 rfl

/-- C1: `searchMemories` requests `limit * 3` candidates from the combined
vector + full-text query (its output depends on the hybrid ranking only
through the first `limit * 3` candidates); with `boostFrequent` it recomputes
the score of every candidate as `score * (1 - min(1, usage_count/10) * 0.4)` with
an absent `usage_count` read as 0, re-sorts ascending by the adjusted score,
and in all cases returns at most the first `limit` results in that order. -/
theorem searchMemories_algorithm (table : List Memory) (hybrid : HybridFn)
    (embed : EmbedFn) (query : String) (limit : ℕ) (bf : Bool) (now : ℕ)
    (ok : String → Bool) (qvec : Vec) (hq : embed query = some qvec) :
    ∃ res t, searchMemories table hybrid embed query limit bf now ok = .ok (res, t) ∧
      res.length ≤ limit ∧
      (∀ hybrid2 : HybridFn,
        (hybrid2 table qvec query).take (limit * 3) =
          (hybrid table qvec query).take (limit * 3) →
        searchMemories table hybrid2 embed query limit bf now ok =
          searchMemories table hybrid embed query limit bf now ok) ∧
      (bf = true →
        res = (((processedResults table hybrid qvec query limit).map (fun r =>
              { r with
                score := r.score *
                  (1 - min 1 ((r.usage_count.getD 0 : ℚ) / 10) * (4 / 10)) })).mergeSort
            (fun a b => decide (a.score ≤ b.score))).take limit ∧
        res.Pairwise (fun a b => a.score ≤ b.score)) ∧
      (bf = false → res = (processedResults table hybrid qvec query limit).take limit) := by
  refine ⟨_, _, searchMemories_eq table hybrid embed query limit bf now ok qvec hq,
    ?_, ?_, ?_, ?_⟩
  · exact List.length_take_le _ _
  · intro hybrid2 hh
    have hpr : processedResults table hybrid2 qvec query limit =
        processedResults table hybrid qvec query limit := by
      simp only [processedResults, hh]
    simp only [searchMemories, hq, hpr]
  · intro hbf
    subst hbf
    constructor
    · rfl
    · have htrans : ∀ a b c : SearchResult, decide (a.score ≤ b.score) = true →
          decide (b.score ≤ c.score) = true → decide (a.score ≤ c.score) = true := by
        intro a b c hab hbc
        simp only [decide_eq_true_eq] at *
        exact le_trans hab hbc
      have htotal : ∀ a b : SearchResult,
          (decide (a.score ≤ b.score) || decide (b.score ≤ a.score)) = true := by
        intro a b
        simp [le_total]
      have hs := List.sorted_mergeSort htrans htotal
        ((processedResults table hybrid qvec query limit).map boosted)
      have hp := List.Pairwise.sublist (List.take_sublist limit _) hs
      simp only [if_true]
      exact hp.imp (fun h => by simpa using h)
  · intro hbf
    subst hbf
    rfl

/-- C1 witness: a boosted search over the empty store succeeds. -/
theorem searchMemories_algorithm_witness :
    (searchMemories [] wHybridEmpty wEmbedOne wQuery 2 true 3 (fun _ => true)).isOk =
      true := by
  obtain ⟨res, t, heq, -⟩ := searchMemories_algorithm [] wHybridEmpty wEmbedOne wQuery 2
    true 3 (fun _ => true) [1] rfl
  rw [heq]
  rfl

/-- C8: the usage bookkeeping of `searchMemories` is applied exactly to the
top `limit` candidates (rows whose id is not among them are unchanged at
their position), and its per-row success or failure never changes the
outcome or the results the search returns. -/
theorem searchMemories_bookkeeping (table : List Memory) (hybrid : HybridFn)
    (embed : EmbedFn) (query : String) (limit : ℕ) (bf : Bool) (now : ℕ)
    (ok : String → Bool) (qvec : Vec) (hq : embed query = some qvec) :
    (∀ ok2 : String → Bool,
      Except.map Prod.fst (searchMemories table hybrid embed query limit bf now ok2) =
        Except.map Prod.fst (searchMemories table hybrid embed query limit bf now ok)) ∧
    ∃ res t, searchMemories table hybrid embed query limit bf now ok = .ok (res, t) ∧
      t = applyUsageUpdates table
        ((processedResults table hybrid qvec query limit).take limit) now ok ∧
      t.length = table.length ∧
      ∀ (i : ℕ) (m : Memory), table[i]? = some m →
        m.id ∉ ((processedResults table hybrid qvec query limit).take limit).map
          (fun r => r.id) →
        t[i]? = some m := by
  constructor
  · intro ok2
    simp only [searchMemories, hq, Except.map]
  · refine ⟨_, _, searchMemories_eq table hybrid embed query limit bf now ok qvec hq,
      rfl, applyUsageUpdates_length _ _ _ _, ?_⟩
    intro i m hm hmem
    exact applyUsageUpdates_getElem? _ _ _ _ _ _ hm hmem

/-- C8 witness: a search whose every bookkeeping update fails returns the
same results as one whose every update succeeds. -/
theorem searchMemories_bookkeeping_witness :
    Except.map Prod.fst
        (searchMemories [] wHybridEmpty wEmbedOne wQuery 1 false 3 (fun _ => false)) =
      Except.map Prod.fst
        (searchMemories [] wHybridEmpty wEmbedOne wQuery 1 false 3 (fun _ => true)) :=
  (searchMemories_bookkeeping [] wHybridEmpty wEmbedOne wQuery 1 false 3 (fun _ => true)
    [1] rfl).1 (fun _ => false)

/-- C7: `addMemories` over N items produces N records appended in a single
multi-row insert, returning their ids (the N supplied fresh ids, distinct
whenever the id source is collision-free), with one identical timestamp
across the batch, `usage_count = 0`, no `last_used`, and the project
and tags of each item resolved to its own value when present, else the batch default. -/
theorem addMemories_batch (table : List Memory) (embed : EmbedFn) (ids : List String)
    (now : ℕ) (items : List BatchItem) (dp : Option String) (dt : Option (List String))
    (embs : List Vec) (hemb : embedAll embed items = some embs)
    (hlen : ids.length = items.length) :
    ∃ objs, addMemories table embed ids now items dp dt =
        .ok (objs.map (fun m => m.id), table ++ objs) ∧
      objs.length = items.length ∧
      objs.map (fun m => m.id) = ids ∧
      (ids.Nodup → (objs.map (fun m => m.id)).Nodup) ∧
      (∀ m ∈ objs, m.timestamp = now ∧ m.usage_count = some 0 ∧ m.last_used = none) ∧
      ∀ i (hi : i < items.length) (ho : i < objs.length),
        (objs.get ⟨i, ho⟩).project = ((items.get ⟨i, hi⟩).project <|> dp) ∧
        (objs.get ⟨i, ho⟩).tags = ((items.get ⟨i, hi⟩).tags <|> dt) ∧
        (objs.get ⟨i, ho⟩).content = (items.get ⟨i, hi⟩).content := by
  have hel := embedAll_length embed items embs hemb
  refine ⟨mkBatchRecords now dp dt items ids embs, ?_, ?_, ?_, ?_, ?_, ?_⟩
  · simp only [addMemories, hemb]
  · exact mkBatchRecords_length now dp dt items ids embs hlen hel
  · exact mkBatchRecords_map_id now dp dt items ids embs hlen hel
  · intro hnd
    rw [mkBatchRecords_map_id now dp dt items ids embs hlen hel]
    exact hnd
  · intro m hm
    exact mkBatchRecords_mem now dp dt items ids embs m hm
  · intro i hi ho
    exact mkBatchRecords_get now dp dt items ids embs i hi ho

/-- C7 witness: a two-item batch with per-item and default metadata succeeds. -/
theorem addMemories_batch_witness :
    (addMemories [] wEmbedOne wIds 5 wItems none none).isOk = true := by
  obtain ⟨objs, heq, -⟩ := addMemories_batch [] wEmbedOne wIds 5 wItems none none
    [[1], [1]] rfl (by decide)
  rw [heq]
  rfl

/-- C10: `getRelatedMemories` performs the usage bookkeeping of its internal
search on the top `limit + 1` candidates of that search — a set the source
record itself can belong to — even though the source id never appears in the
returned results. -/
theorem getRelatedMemories_bookkeeping (table : List Memory) (hybrid : HybridFn)
    (embed : EmbedFn) (memoryId : String) (limit : ℕ) (bf : Bool) (now : ℕ)
    (ok : String → Bool) (src : Memory) (qvec : Vec)
    (hsrc : findById table memoryId = some src)
    (hq : embed src.content = some qvec) :
    ∃ res t, getRelatedMemories table hybrid embed memoryId limit bf now ok =
        .ok (res, t) ∧
      t = applyUsageUpdates table
        ((processedResults table hybrid qvec src.content (limit + 1)).take (limit + 1))
        now ok ∧
      ∀ r ∈ res, r.id ≠ memoryId := by
  have hs := searchMemories_eq table hybrid embed src.content (limit + 1) bf now ok
    qvec hq
  have hmain := getRelated_eq table hybrid embed memoryId limit bf now ok src _ _ hsrc hs
  refine ⟨_, _, hmain, rfl, ?_⟩
  intro r hr
  have hr2 := List.take_subset _ _ hr
  have := (List.mem_filter.mp hr2).2
  simpa [bne_iff_ne] using this

/-- C10 witness: on a one-record store, a related-memories call on that very
record returns no results yet leaves the record with `usage_count` bumped to
1 and `last_used` set — the source incremented its own usage statistics. -/
theorem getRelatedMemories_bookkeeping_witness :
    Except.map Prod.snd (getRelatedMemories [demoMemory] demoHybrid wEmbedOne
        demoMemory.id 1 false 99 (fun _ => true)) = .ok [demoUpdated] := by
  obtain ⟨res, t, heq, ht, -⟩ := getRelatedMemories_bookkeeping [demoMemory] demoHybrid
    wEmbedOne demoMemory.id 1 false 99 (fun _ => true) demoMemory [1] rfl rfl
  subst ht
  rw [heq]
  simp only [Except.map, Except.ok.injEq]
  decide

end SemanticRecall
